import Mathlib

/-!
Verification development for the `StatsSection` component
(`src/src/components/home/StatsSection.jsx`).

The component is shallowly embedded: the counter interpolation maths is
modelled over `ℚ` (the source uses JS numbers on small integral inputs),
the `requestAnimationFrame` handle bookkeeping as an explicit state record,
the entrance sequencer as a step relation on an event trace, and the hover
interaction state as a component state machine.
-/

namespace StatsSection

/-! ## Counter interpolator (`animateCounter`, src lines 50-70) -/

/-- Source line 52: `const startValue = 0`. -/
def startValue : ℚ := 0

/-- Source lines 55-56: `const elapsed = currentTime - startTime;
const progress = Math.min(elapsed / duration, 1)`. -/
def progressAt (startTime duration t : ℚ) : ℚ :=
  min ((t - startTime) / duration) 1

/-- Source line 59: `const easedProgress = 1 - Math.pow(1 - progress, 2)`. -/
def easedAt (p : ℚ) : ℚ := 1 - (1 - p) ^ 2

/-- Source line 60: `const currentValue = Math.floor(startValue +
(finalNumber - startValue) * easedProgress)`. -/
def currentValueAt (finalNumber : ℤ) (startTime duration t : ℚ) : ℤ :=
  ⌊startValue + ((finalNumber : ℚ) - startValue) * easedAt (progressAt startTime duration t)⌋

/-- Source line 50: `animateCounter = useCallback((element, finalNumber,
duration = 1500) => ...` — the default-parameter duration. -/
def animateCounterDefaultDuration : ℚ := 1500

/-- Source line 120: the call site `animateCounter(counter,
statsData[index].number, 1200)` passes the duration explicitly. -/
def counterInvocationDuration : ℚ := 1200

/-- Source lines 54-67: each frame step writes `currentValue` to the display
target and reschedules another step iff `progress < 1`.  `runCounter f t0 D ts`
is the sequence of values written when the frame scheduler delivers callbacks
at the times `ts`. -/
def runCounter (finalNumber : ℤ) (startTime duration : ℚ) : List ℚ → List ℤ
  | [] => []
  | t :: ts =>
    if progressAt startTime duration t < 1 then
      currentValueAt finalNumber startTime duration t ::
        runCounter finalNumber startTime duration ts
    else
      [currentValueAt finalNumber startTime duration t]

/-! ### Basic facts about the interpolation formula -/

lemma currentValueAt_eq (f : ℤ) (t0 D t : ℚ) :
    currentValueAt f t0 D t = ⌊(f : ℚ) * easedAt (progressAt t0 D t)⌋ := by
  simp [currentValueAt, startValue]

lemma progressAt_le_one (t0 D t : ℚ) : progressAt t0 D t ≤ 1 :=
  min_le_right _ _

lemma progressAt_nonneg {t0 D t : ℚ} (hD : 0 < D) (ht : t0 ≤ t) :
    0 ≤ progressAt t0 D t :=
  le_min (div_nonneg (sub_nonneg.mpr ht) hD.le) zero_le_one

lemma progressAt_mono {t0 D t t' : ℚ} (hD : 0 < D) (h : t ≤ t') :
    progressAt t0 D t ≤ progressAt t0 D t' := by
  unfold progressAt
  have : (t - t0) / D ≤ (t' - t0) / D := by
    gcongr
  exact min_le_min this le_rfl

lemma progressAt_eq_one {t0 D t : ℚ} (hD : 0 < D) (ht : t0 + D ≤ t) :
    progressAt t0 D t = 1 := by
  unfold progressAt
  apply min_eq_right
  rw [le_div_iff₀ hD]
  linarith

lemma easedAt_mono {p q : ℚ} (hpq : p ≤ q) (hq : q ≤ 1) :
    easedAt p ≤ easedAt q := by
  unfold easedAt
  nlinarith [mul_nonneg (sub_nonneg.mpr hpq) (by linarith : (0 : ℚ) ≤ 2 - p - q)]

lemma easedAt_nonneg {p : ℚ} (hp : 0 ≤ p) (hp1 : p ≤ 1) : 0 ≤ easedAt p := by
  unfold easedAt
  nlinarith [mul_nonneg hp (by linarith : (0 : ℚ) ≤ 2 - p)]

lemma easedAt_le_one (p : ℚ) : easedAt p ≤ 1 := by
  unfold easedAt
  nlinarith [sq_nonneg (1 - p)]

lemma currentValueAt_mono {f : ℤ} {t0 D t t' : ℚ} (hf : 0 ≤ f) (hD : 0 < D)
    (h : t ≤ t') : currentValueAt f t0 D t ≤ currentValueAt f t0 D t' := by
  rw [currentValueAt_eq, currentValueAt_eq]
  apply Int.floor_mono
  have hf' : (0 : ℚ) ≤ (f : ℚ) := by exact_mod_cast hf
  exact mul_le_mul_of_nonneg_left
    (easedAt_mono (progressAt_mono hD h) (progressAt_le_one t0 D t')) hf'

lemma currentValueAt_nonneg {f : ℤ} {t0 D t : ℚ} (hf : 0 ≤ f) (hD : 0 < D)
    (ht : t0 ≤ t) : 0 ≤ currentValueAt f t0 D t := by
  rw [currentValueAt_eq]
  rw [Int.le_floor]
  push_cast
  have hf' : (0 : ℚ) ≤ (f : ℚ) := by exact_mod_cast hf
  exact mul_nonneg hf' (easedAt_nonneg (progressAt_nonneg hD ht) (progressAt_le_one t0 D t))

lemma currentValueAt_le {f : ℤ} {t0 D t : ℚ} (hf : 0 ≤ f) :
    currentValueAt f t0 D t ≤ f := by
  rw [currentValueAt_eq]
  have hf' : (0 : ℚ) ≤ (f : ℚ) := by exact_mod_cast hf
  calc ⌊(f : ℚ) * easedAt (progressAt t0 D t)⌋
      ≤ ⌊(f : ℚ)⌋ := by
        apply Int.floor_mono
        nlinarith [easedAt_le_one (progressAt t0 D t)]
    _ = f := Int.floor_intCast f

lemma currentValueAt_of_full {f : ℤ} {t0 D t : ℚ}
    (h : ¬ progressAt t0 D t < 1) : currentValueAt f t0 D t = f := by
  have h1 : progressAt t0 D t = 1 :=
    le_antisymm (progressAt_le_one t0 D t) (not_lt.mp h)
  rw [currentValueAt_eq, h1]
  norm_num [easedAt]

/-! ### Facts about the emitted sequence -/

lemma runCounter_head? (f : ℤ) (t0 D t : ℚ) (ts : List ℚ) :
    (runCounter f t0 D (t :: ts)).head? = some (currentValueAt f t0 D t) := by
  unfold runCounter
  split <;> rfl

lemma runCounter_mem {f : ℤ} {t0 D : ℚ} :
    ∀ {ts : List ℚ} {v : ℤ}, v ∈ runCounter f t0 D ts →
      ∃ t ∈ ts, v = currentValueAt f t0 D t := by
  intro ts
  induction ts with
  | nil => intro v hv; simp [runCounter] at hv
  | cons t ts ih =>
    intro v hv
    unfold runCounter at hv
    split at hv
    · rcases List.mem_cons.mp hv with h | h
      · exact ⟨t, List.mem_cons_self t ts, h⟩
      · obtain ⟨u, hu, hvu⟩ := ih h
        exact ⟨u, List.mem_cons_of_mem t hu, hvu⟩
    · rcases List.mem_singleton.mp hv with h
      exact ⟨t, List.mem_cons_self t ts, h⟩

lemma runCounter_chain {f : ℤ} {t0 D : ℚ} (hf : 0 ≤ f) (hD : 0 < D) :
    ∀ ts : List ℚ, ts.Chain' (fun a b => a ≤ b) →
      (runCounter f t0 D ts).Chain' (fun a b => a ≤ b) := by
  intro ts
  induction ts with
  | nil => intro _; simp [runCounter]
  | cons t ts ih =>
    intro hc
    rw [List.chain'_cons'] at hc
    unfold runCounter
    split
    · rw [List.chain'_cons']
      refine ⟨?_, ih hc.2⟩
      intro b hb
      cases ts with
      | nil => simp [runCounter] at hb
      | cons u us =>
        rw [runCounter_head?] at hb
        rcases Option.mem_some_iff.mp hb with rfl
        exact currentValueAt_mono hf hD (hc.1 u rfl)
    · simp

lemma runCounter_getLast? {f : ℤ} {t0 D : ℚ} (hD : 0 < D) :
    ∀ ts : List ℚ, (∃ t ∈ ts, t0 + D ≤ t) →
      (runCounter f t0 D ts).getLast? = some f := by
  intro ts
  induction ts with
  | nil => intro h; simp at h
  | cons t ts ih =>
    intro h
    unfold runCounter
    split
    · rename_i hp
      obtain ⟨u, hu, hDu⟩ := h
      rcases List.mem_cons.mp hu with rfl | hu'
      · exact absurd (progressAt_eq_one hD hDu) (by intro he; rw [he] at hp; exact lt_irrefl 1 hp)
      · have hlast := ih ⟨u, hu', hDu⟩
        cases hrest : runCounter f t0 D ts with
        | nil => rw [hrest] at hlast; simp at hlast
        | cons r rs =>
          rw [hrest] at hlast
          rw [List.getLast?_cons_cons]
          exact hlast
    · rename_i hp
      simp [currentValueAt_of_full hp]

/-- C2: for every finalValue ≥ 0 and every non-decreasing sequence of frame
times starting at t0, the emitted counter sequence is non-decreasing, every
emitted value lies in [0, finalValue], the run that reaches progress 1 ends
with exactly finalValue, and for finalValue = 0 every emitted value is 0. -/
theorem counter_run_correct (f : ℤ) (t0 D : ℚ) (ts : List ℚ)
    (hf : 0 ≤ f) (hD : 0 < D)
    (hchain : ts.Chain' (fun a b => a ≤ b))
    (hstart : ∀ t ∈ ts, t0 ≤ t) :
    (runCounter f t0 D ts).Chain' (fun a b => a ≤ b) ∧
    (∀ v ∈ runCounter f t0 D ts, 0 ≤ v ∧ v ≤ f) ∧
    ((∃ t ∈ ts, t0 + D ≤ t) → (runCounter f t0 D ts).getLast? = some f) ∧
    (f = 0 → ∀ v ∈ runCounter f t0 D ts, v = 0) := by
  have hbounds : ∀ v ∈ runCounter f t0 D ts, 0 ≤ v ∧ v ≤ f := by
    intro v hv
    obtain ⟨t, ht, rfl⟩ := runCounter_mem hv
    exact ⟨currentValueAt_nonneg hf hD (hstart t ht), currentValueAt_le hf⟩
  refine ⟨runCounter_chain hf hD ts hchain, hbounds, runCounter_getLast? hD ts, ?_⟩
  intro hf0 v hv
  have := hbounds v hv
  omega

/-- Witness for C2 at finalValue = 500, t0 = 0, D = 1200,
frame times [300, 600, 1200]. -/
theorem counter_run_correct_witness :
    (runCounter 500 0 1200 [300, 600, 1200]).Chain' (fun a b => a ≤ b) ∧
    (∀ v ∈ runCounter 500 0 1200 [300, 600, 1200], 0 ≤ v ∧ v ≤ 500) ∧
    ((∃ t ∈ [(300 : ℚ), 600, 1200], (0 : ℚ) + 1200 ≤ t) →
      (runCounter 500 0 1200 [300, 600, 1200]).getLast? = some 500) ∧
    ((500 : ℤ) = 0 → ∀ v ∈ runCounter 500 0 1200 [300, 600, 1200], v = 0) :=
  counter_run_correct 500 0 1200 [300, 600, 1200] (by decide) (by decide)
    (by simp +decide [List.chain'_cons]) (by decide)

/-! ## Static stat data (`statsData`, src lines 12-45) -/

/-- One record of the `statsData` array (src lines 12-45). -/
structure StatRecord where
  number : ℤ
  suffix : String
  label : String
  icon : String
  color : String
  glowColor : String

/-- The four records of `statsData` (src lines 12-45), in render order. -/
def statsData : List StatRecord :=
  [⟨500, "+", "Wedding projects completed", "⚘",
    "from-[#D3FD50] to-[#b8e03e]", "rgba(211, 253, 80, 0.3)"⟩,
   ⟨97, "%", "Happy Clients", "◉",
    "from-[#D3FD50] to-[#a3d139]", "rgba(211, 253, 80, 0.4)"⟩,
   ⟨8, "", "Editors in our team", "✎",
    "from-[#b8e03e] to-[#D3FD50]", "rgba(184, 224, 62, 0.3)"⟩,
   ⟨7, " years", "Post-production experience", "⚝",
    "from-[#a3d139] to-[#D3FD50]", "rgba(163, 209, 57, 0.35)"⟩]

/-! ## C8: default duration -/

/-- C8 counterexample: the default duration of `animateCounter` is not
1200ms — the default parameter at src line 50 is 1500. -/
theorem default_duration_not_1200 : ¬ animateCounterDefaultDuration = 1200 := by
  norm_num [animateCounterDefaultDuration]

/-- C8 amended: the default duration of `animateCounter` is 1500ms; the
1200ms figure is the explicit argument passed at the call site (src line
120), not the default. -/
theorem default_duration_is_1500 :
    animateCounterDefaultDuration = 1500 ∧ counterInvocationDuration = 1200 :=
  ⟨rfl, rfl⟩

/-! ## C6: invalid stat values -/

/-- C6 counterexample: a negative finalValue is neither clamped nor
rejected — at finalValue = -100, t0 = 0, D = 1200, t = 600 the interpolator
displays -75, a negative value. -/
theorem negative_final_value_yields_negative :
    currentValueAt (-100) 0 1200 600 = -75 ∧ (-75 : ℤ) < 0 := by
  constructor
  · norm_num [currentValueAt, progressAt, easedAt, startValue, min_def]
  · decide

lemma progressAt_pos {t0 D t : ℚ} (hD : 0 < D) (ht : t0 < t) :
    0 < progressAt t0 D t :=
  lt_min (div_pos (by linarith) hD) one_pos

lemma easedAt_pos {p : ℚ} (hp : 0 < p) (hp1 : p ≤ 1) : 0 < easedAt p := by
  unfold easedAt
  nlinarith [mul_pos hp (by linarith : (0 : ℚ) < 2 - p)]

/-- C6 amended: the interpolator performs no clamping and no rejection: a
negative finalValue yields a strictly negative displayed value at every
strictly intermediate step.  The component's static `statsData`, however,
holds only the non-negative values [500, 97, 8, 7], and for every
non-negative finalValue the displayed value stays in [0, finalValue], so the
shipped configuration never displays a negative value. -/
theorem counter_unclamped_but_stats_nonneg :
    statsData.map (fun s => s.number) = [500, 97, 8, 7] ∧
    (∀ f : ℤ, ∀ t0 D t : ℚ, 0 ≤ f → 0 < D → t0 ≤ t →
      0 ≤ currentValueAt f t0 D t ∧ currentValueAt f t0 D t ≤ f) ∧
    (∀ f : ℤ, ∀ t0 D t : ℚ, f < 0 → 0 < D → t0 < t →
      currentValueAt f t0 D t < 0) := by
  refine ⟨rfl, ?_, ?_⟩
  · intro f t0 D t hf hD ht
    exact ⟨currentValueAt_nonneg hf hD ht, currentValueAt_le hf⟩
  · intro f t0 D t hf hD ht
    rw [currentValueAt_eq]
    have h0 : ((0 : ℤ) : ℚ) = 0 := rfl
    rw [Int.floor_lt, h0]
    have hpos := easedAt_pos (progressAt_pos hD ht) (progressAt_le_one t0 D t)
    have hf' : ((f : ℚ)) < 0 := by exact_mod_cast hf
    exact mul_neg_of_neg_of_pos hf' hpos

/-- Witness for the amended C6 at the shipped value 500 and at the invalid
value -100. -/
theorem counter_unclamped_but_stats_nonneg_witness :
    (0 ≤ currentValueAt 500 0 1200 600 ∧ currentValueAt 500 0 1200 600 ≤ 500) ∧
    currentValueAt (-100) 0 1200 600 < 0 :=
  ⟨counter_unclamped_but_stats_nonneg.2.1 500 0 1200 600 (by decide) (by decide) (by decide),
   counter_unclamped_but_stats_nonneg.2.2 (-100) 0 1200 600 (by decide) (by decide) (by decide)⟩

/-! ## C7: non-positive duration -/

/-- C7 counterexample: at duration D = -1200 the interpolator neither
rejects the input nor resolves immediately — at finalValue = 500, t0 = 0,
t = 600 it displays -625 (outside [0, 500]), and since progress < 1 the step
reschedules. -/
theorem negative_duration_escapes_range :
    currentValueAt 500 0 (-1200) 600 = -625 ∧ progressAt 0 (-1200) 600 < 1 := by
  constructor
  · norm_num [currentValueAt, progressAt, easedAt, startValue, min_def]
  · norm_num [progressAt, min_def]

/-- C7 amended: for every strictly negative duration the interpolator
neither rejects nor resolves: at every step after the start time it displays
a strictly negative value (outside [0, finalValue]) and, because progress
stays below 1, reschedules the next step — so it never terminates.  (The
D = 0 case divides by zero in JS and is outside this rational model.) -/
theorem negative_duration_diverges (f : ℤ) (t0 D t : ℚ)
    (hf : 0 < f) (hD : D < 0) (ht : t0 < t) :
    currentValueAt f t0 D t < 0 ∧ progressAt t0 D t < 1 := by
  have hdiv : (t - t0) / D < 0 := div_neg_of_pos_of_neg (by linarith) hD
  have hprog : progressAt t0 D t < 1 := by
    unfold progressAt
    calc min ((t - t0) / D) 1 ≤ (t - t0) / D := min_le_left _ _
      _ < 1 := by linarith
  refine ⟨?_, hprog⟩
  have hpmin : progressAt t0 D t ≤ (t - t0) / D := min_le_left _ _
  have hpneg : progressAt t0 D t < 0 := lt_of_le_of_lt hpmin hdiv
  have heneg : easedAt (progressAt t0 D t) < 0 := by
    unfold easedAt
    nlinarith [sq_nonneg (progressAt t0 D t)]
  rw [currentValueAt_eq]
  have h0 : ((0 : ℤ) : ℚ) = 0 := rfl
  rw [Int.floor_lt, h0]
  have hf' : (0 : ℚ) < (f : ℚ) := by exact_mod_cast hf
  exact mul_neg_of_pos_of_neg hf' heneg

/-- Witness for the amended C7 at finalValue = 500, t0 = 0, D = -1200,
t = 600. -/
theorem negative_duration_diverges_witness :
    currentValueAt 500 0 (-1200) 600 < 0 ∧ progressAt 0 (-1200) 600 < 1 :=
  negative_duration_diverges 500 0 (-1200) 600 (by decide) (by decide) (by decide)

/-! ## C1: frame-handle bookkeeping across unmount (src lines 10, 50-70, 149-164) -/

/-- State of the browser frame scheduler: the next fresh handle (browsers
hand out positive handles, so the model starts at 1) and the handles of
scheduled-but-not-yet-fired callbacks, in scheduling order. -/
structure RafState where
  nextHandle : Nat
  pending : List Nat
deriving DecidableEq

/-- Model of `requestAnimationFrame`: hands out a fresh handle and schedules it. -/
def requestFrame (s : RafState) : Nat × RafState :=
  (s.nextHandle, ⟨s.nextHandle + 1, s.pending ++ [s.nextHandle]⟩)

/-- Model of `cancelAnimationFrame(h)`: unschedules the callback with handle `h`. -/
def cancelFrame (h : Nat) (s : RafState) : RafState :=
  ⟨s.nextHandle, s.pending.filter (fun x => x != h)⟩

/-- Source line 69: `animationFrameRef.current = requestAnimationFrame(animate)`
— starting one counter overwrites the single shared ref with that counter's
own frame handle. -/
def animateCounterStart (st : Option Nat × RafState) : Option Nat × RafState :=
  let p := requestFrame st.2
  (some p.1, p.2)

/-- The staggered `animateCounter(...)` calls for `n` counters (src lines
116-121): each start stores its handle in the one shared
`animationFrameRef` (src line 10). -/
def startCounters : Nat → Option Nat × RafState → Option Nat × RafState
  | 0, st => st
  | n + 1, st => startCounters n (animateCounterStart st)

/-- Unmount cleanup (src lines 158-164): `if (animationFrameRef.current)
cancelAnimationFrame(animationFrameRef.current)` — cancels only the single
handle held in the shared ref. -/
def unmountCleanup (st : Option Nat × RafState) : RafState :=
  match st.1 with
  | some h => if h ≠ 0 then cancelFrame h st.2 else st.2
  | none => st.2

/-- C1: unmount does not cancel the pending step of every in-flight counter.
With the four counters of `statsData` each holding one scheduled frame step,
the shared `animationFrameRef` holds only the last handle (4), so the
cleanup leaves the steps with handles 1, 2 and 3 still scheduled; each of
those steps, when it fires after teardown, unconditionally writes to the
display target (src line 62) before deciding whether to reschedule. -/
theorem unmount_cancel_misses_inflight_counters :
    (startCounters 4 (none, ⟨1, []⟩)).1 = some 4 ∧
    (unmountCleanup (startCounters 4 (none, ⟨1, []⟩))).pending = [1, 2, 3] ∧
    ¬ (unmountCleanup (startCounters 4 (none, ⟨1, []⟩))).pending = [] := by
  refine ⟨rfl, rfl, by decide⟩

/-! ## C3: one-shot counter scheduling (src lines 8, 108-127, 149-155) -/

/-- Events reaching the card-group entrance sequencer: a ScrollTrigger
`onEnter` fire at time `t`, or the 200ms settle `setTimeout` callback firing
at time `t`. -/
inductive SeqEvent where
  | triggerFire (t : Nat)
  | settleFire (t : Nat)
deriving DecidableEq

/-- Source line 124: the delay of the counter-start `setTimeout`. -/
def counterSettleDelay : Nat := 200

/-- Sequencer state: `hasAnimated` (src line 8); whether a live card-group
ScrollTrigger exists (`once: true`, src line 111, destroys it on fire; the
`useGSAP` re-run on a `hasAnimated` change, src line 155, recreates it);
the scheduled time of a pending settle timeout; and the times at which the
counter cascade was actually started. -/
structure SeqState where
  hasAnimated : Bool
  triggerAlive : Bool
  pendingSettle : Option Nat
  counterStarts : List Nat
deriving DecidableEq

/-- Mount-time sequencer state: `useState(false)` (src line 8) and a fresh
trigger. -/
def initSeq : SeqState := ⟨false, true, none, []⟩

/-- One sequencer step.  `onEnter` (src lines 112-126): only a live trigger
fires, and `once: true` destroys it afterwards; with `hasAnimated` still
false the 200ms settle timeout is scheduled.  When that timeout fires it
starts the counter cascade and calls `setHasAnimated(true)` (src line 123),
whose state change re-runs the `useGSAP` effect (dep list, src line 155)
and so recreates the trigger with the updated closure. -/
def seqStep (s : SeqState) : SeqEvent → SeqState
  | .triggerFire t =>
    if s.triggerAlive then
      if s.hasAnimated then { s with triggerAlive := false }
      else { s with triggerAlive := false,
                    pendingSettle := some (t + counterSettleDelay) }
    else s
  | .settleFire t =>
    match s.pendingSettle with
    | some u =>
      if u = t then
        { hasAnimated := true, triggerAlive := true, pendingSettle := none,
          counterStarts := s.counterStarts ++ [t] }
      else s
    | none => s

/-- The sequencer state after a whole event trace, from mount. -/
def seqRun (evs : List SeqEvent) : SeqState := evs.foldl seqStep initSeq

/-- The time of the first card-group trigger fire in a trace. -/
def firstTriggerFire : List SeqEvent → Option Nat
  | [] => none
  | SeqEvent.triggerFire t :: _ => some t
  | SeqEvent.settleFire _ :: evs => firstTriggerFire evs

/-- Reachability invariant of the sequencer, indexed by the time of the
first trigger fire: before any fire the state is the mount state; after a
fire at `u` the settle timeout for `u + 200` is pending with nothing
started yet, or the cascade has started exactly once, at `u + 200`. -/
def SeqInv : Option Nat → SeqState → Prop
  | none, s => s = initSeq
  | some u, s =>
    s = ⟨false, false, some (u + counterSettleDelay), []⟩ ∨
    (s.hasAnimated = true ∧ s.pendingSettle = none ∧
      s.counterStarts = [u + counterSettleDelay])

lemma seqStep_pres {u : Nat} {s : SeqState} (hs : SeqInv (some u) s)
    (ev : SeqEvent) : SeqInv (some u) (seqStep s ev) := by
  rcases hs with h | ⟨h1, h2, h3⟩
  · subst h
    cases ev with
    | triggerFire t => simp [seqStep, SeqInv]
    | settleFire t =>
      by_cases ht : u + counterSettleDelay = t
      · subst ht; right; simp [seqStep]
      · left; simp [seqStep, ht]
  · cases ev with
    | triggerFire t =>
      right
      cases htr : s.triggerAlive <;> simp [seqStep, htr, h1, h2, h3]
    | settleFire t =>
      right
      simp [seqStep, h2, h1, h3]

lemma seqRun_inv_some (evs : List SeqEvent) :
    ∀ (s : SeqState) (u : Nat), SeqInv (some u) s →
      SeqInv (some u) (evs.foldl seqStep s) := by
  induction evs with
  | nil => intro s u hs; exact hs
  | cons ev evs ih =>
    intro s u hs
    exact ih (seqStep s ev) u (seqStep_pres hs ev)

lemma seqRun_inv (evs : List SeqEvent) :
    SeqInv (firstTriggerFire evs) (seqRun evs) := by
  unfold seqRun
  induction evs with
  | nil => rfl
  | cons ev evs ih =>
    cases ev with
    | triggerFire t =>
      have hstep : seqStep initSeq (SeqEvent.triggerFire t) =
          ⟨false, false, some (t + counterSettleDelay), []⟩ := by
        simp [seqStep, initSeq]
      show SeqInv (some t)
        ((SeqEvent.triggerFire t :: evs).foldl seqStep initSeq)
      rw [List.foldl_cons, hstep]
      exact seqRun_inv_some evs _ t (Or.inl rfl)
    | settleFire t =>
      have hstep : seqStep initSeq (SeqEvent.settleFire t) = initSeq := by
        simp [seqStep, initSeq]
      show SeqInv (firstTriggerFire evs)
        ((SeqEvent.settleFire t :: evs).foldl seqStep initSeq)
      rw [List.foldl_cons, hstep]
      exact ih

/-- C3: the counter cascade is scheduled at most once per mount, and any
start happens exactly 200ms (in scheduled time) after the first card-group
trigger fire; later trigger fires in the same mount (including fires of the
trigger recreated after the `hasAnimated` state change) never schedule the
counters again. -/
theorem counter_schedule_at_most_once (evs : List SeqEvent) :
    (seqRun evs).counterStarts.length ≤ 1 ∧
    ∀ x ∈ (seqRun evs).counterStarts,
      some x = (firstTriggerFire evs).map (fun u => u + counterSettleDelay) := by
  have h := seqRun_inv evs
  cases hff : firstTriggerFire evs with
  | none =>
    rw [hff] at h
    rw [show seqRun evs = initSeq from h]
    simp [initSeq]
  | some u =>
    rw [hff] at h
    rcases h with h | ⟨_, _, h3⟩
    · rw [h]; simp
    · rw [h3]; simp

/-- Witness for C3: a trace with a trigger fire at 100, the settle timeout
at 300, and a post-recreation trigger fire at 400 starts the counters once,
at time 300. -/
theorem counter_schedule_at_most_once_witness :
    (seqRun [SeqEvent.triggerFire 100, SeqEvent.settleFire 300,
      SeqEvent.triggerFire 400]).counterStarts.length ≤ 1 ∧
    ∀ x ∈ (seqRun [SeqEvent.triggerFire 100, SeqEvent.settleFire 300,
      SeqEvent.triggerFire 400]).counterStarts,
      some x = (firstTriggerFire [SeqEvent.triggerFire 100,
        SeqEvent.settleFire 300, SeqEvent.triggerFire 400]).map
        (fun u => u + counterSettleDelay) :=
  counter_schedule_at_most_once
    [SeqEvent.triggerFire 100, SeqEvent.settleFire 300, SeqEvent.triggerFire 400]

/-! ## Interaction state and the counter (src lines 73-79, 190-198) -/

/-- Events of one mounted component that touch a counter or the hover
state: `onMouseEnter` on card `i` (src line 196), `onMouseLeave` on card
`i` (src line 197), and a counter frame step at time `t`. -/
inductive CompEvent where
  | mouseEnter (i : Nat)
  | mouseLeave (i : Nat)
  | frame (t : ℚ)

/-- Whether an event is a counter frame step. -/
def CompEvent.isFrame : CompEvent → Bool
  | .frame _ => true
  | _ => false

/-- Component state: `hoveredCard` (src line 9), whether the counter has a
scheduled frame step, and the (time, value) pairs written so far. -/
structure CompState where
  hoveredCard : Option Nat
  framePending : Bool
  written : List (ℚ × ℤ)

/-- One component step.  `handleMouseEnter` (src lines 73-75) stores the
card index; `handleMouseLeave` (src lines 77-79) takes no index and clears
the hover state unconditionally; a frame step (src lines 54-67) writes the
current value and reschedules iff `progress < 1`.  The frame branch reads
nothing from `hoveredCard`, and the hover branches touch nothing but
`hoveredCard`. -/
def compStep (f : ℤ) (t0 D : ℚ) (s : CompState) : CompEvent → CompState
  | .mouseEnter i => { s with hoveredCard := some i }
  | .mouseLeave _ => { s with hoveredCard := none }
  | .frame t =>
    if s.framePending then
      { s with written := s.written ++ [(t, currentValueAt f t0 D t)],
               framePending := decide (progressAt t0 D t < 1) }
    else s

/-- The component state after a whole event trace, from counter start. -/
def compRun (f : ℤ) (t0 D : ℚ) (evs : List CompEvent) : CompState :=
  evs.foldl (compStep f t0 D) ⟨none, true, []⟩

/-- The counter-owned part of the component state. -/
def counterProj (s : CompState) : Bool × List (ℚ × ℤ) :=
  (s.framePending, s.written)

lemma compStep_counterProj_congr {f : ℤ} {t0 D : ℚ} {s s' : CompState}
    (h : counterProj s = counterProj s') (ev : CompEvent) :
    counterProj (compStep f t0 D s ev) = counterProj (compStep f t0 D s' ev) := by
  have h1 : s.framePending = s'.framePending := congrArg Prod.fst h
  have h2 : s.written = s'.written := congrArg Prod.snd h
  cases ev with
  | mouseEnter i => simpa [compStep, counterProj] using h
  | mouseLeave i => simpa [compStep, counterProj] using h
  | frame t =>
    simp only [compStep, counterProj, h1, h2]
    by_cases hfp : s'.framePending = true
    · simp [hfp]
    · simp [hfp, h1, h2]

lemma foldl_counterProj_congr {f : ℤ} {t0 D : ℚ} :
    ∀ (evs : List CompEvent) {s s' : CompState},
      counterProj s = counterProj s' →
      counterProj (evs.foldl (compStep f t0 D) s) =
        counterProj (evs.foldl (compStep f t0 D) s') := by
  intro evs
  induction evs with
  | nil => intro s s' h; exact h
  | cons ev evs ih =>
    intro s s' h
    exact ih (compStep_counterProj_congr h ev)

lemma compRun_counterProj_filter {f : ℤ} {t0 D : ℚ} :
    ∀ (evs : List CompEvent) (s : CompState),
      counterProj (evs.foldl (compStep f t0 D) s) =
        counterProj ((evs.filter CompEvent.isFrame).foldl (compStep f t0 D) s) := by
  intro evs
  induction evs with
  | nil => intro s; rfl
  | cons ev evs ih =>
    intro s
    cases ev with
    | frame t =>
      rw [show (CompEvent.frame t :: evs).filter CompEvent.isFrame =
        CompEvent.frame t :: evs.filter CompEvent.isFrame from rfl]
      rw [List.foldl_cons, List.foldl_cons]
      exact ih _
    | mouseEnter i =>
      rw [show (CompEvent.mouseEnter i :: evs).filter CompEvent.isFrame =
        evs.filter CompEvent.isFrame from rfl]
      rw [List.foldl_cons]
      calc counterProj (evs.foldl (compStep f t0 D) (compStep f t0 D s (.mouseEnter i)))
          = counterProj ((evs.filter CompEvent.isFrame).foldl (compStep f t0 D)
              (compStep f t0 D s (.mouseEnter i))) := ih _
        _ = counterProj ((evs.filter CompEvent.isFrame).foldl (compStep f t0 D) s) :=
            foldl_counterProj_congr _ rfl
    | mouseLeave i =>
      rw [show (CompEvent.mouseLeave i :: evs).filter CompEvent.isFrame =
        evs.filter CompEvent.isFrame from rfl]
      rw [List.foldl_cons]
      calc counterProj (evs.foldl (compStep f t0 D) (compStep f t0 D s (.mouseLeave i)))
          = counterProj ((evs.filter CompEvent.isFrame).foldl (compStep f t0 D)
              (compStep f t0 D s (.mouseLeave i))) := ih _
        _ = counterProj ((evs.filter CompEvent.isFrame).foldl (compStep f t0 D) s) :=
            foldl_counterProj_congr _ rfl

/-- C9: the counter's written values and step bookkeeping depend only on
the frame events: two runs whose traces agree after erasing all
mouse-enter/mouse-leave events write the same values at the same times. -/
theorem counter_emissions_hover_independent (f : ℤ) (t0 D : ℚ)
    (evs1 evs2 : List CompEvent)
    (h : evs1.filter CompEvent.isFrame = evs2.filter CompEvent.isFrame) :
    (compRun f t0 D evs1).written = (compRun f t0 D evs2).written ∧
    (compRun f t0 D evs1).framePending = (compRun f t0 D evs2).framePending := by
  have h1 := @compRun_counterProj_filter f t0 D evs1 ⟨none, true, []⟩
  have h2 := @compRun_counterProj_filter f t0 D evs2 ⟨none, true, []⟩
  rw [h] at h1
  have h3 : counterProj (compRun f t0 D evs1) = counterProj (compRun f t0 D evs2) := by
    unfold compRun
    rw [h1, h2]
  exact ⟨congrArg Prod.snd h3, congrArg Prod.fst h3⟩

/-- Witness for C9: a run with hover events interleaved writes the same
pairs as the run with only the frame events. -/
theorem counter_emissions_hover_independent_witness :
    (compRun 500 0 1200 [CompEvent.mouseEnter 0, CompEvent.frame 600,
      CompEvent.mouseLeave 2, CompEvent.frame 1200]).written =
      (compRun 500 0 1200 [CompEvent.frame 600, CompEvent.frame 1200]).written ∧
    (compRun 500 0 1200 [CompEvent.mouseEnter 0, CompEvent.frame 600,
      CompEvent.mouseLeave 2, CompEvent.frame 1200]).framePending =
      (compRun 500 0 1200 [CompEvent.frame 600, CompEvent.frame 1200]).framePending :=
  counter_emissions_hover_independent 500 0 1200
    [CompEvent.mouseEnter 0, CompEvent.frame 600,
      CompEvent.mouseLeave 2, CompEvent.frame 1200]
    [CompEvent.frame 600, CompEvent.frame 1200] rfl

/-- C10: `handleMouseLeave` ignores which card fired it: a mouse-leave on
any card `i` clears `hoveredCard` to none from any state, and in particular
an enter on card `j` followed by a leave on a different card `i` leaves no
card hovered. -/
theorem mouse_leave_clears_hover (f : ℤ) (t0 D : ℚ) (s : CompState)
    (i j : Nat) :
    (compStep f t0 D s (CompEvent.mouseLeave i)).hoveredCard = none ∧
    (compStep f t0 D (compStep f t0 D s (CompEvent.mouseEnter j))
      (CompEvent.mouseLeave i)).hoveredCard = none :=
  ⟨rfl, rfl⟩

/-! ## C5: hover capability gating (src lines 222-228, 239-257, 306-349) -/

/-- The media predicates the component's style block queries (src lines
313-343). -/
structure MediaEnv where
  hoverHover : Bool
  pointerFine : Bool
  maxWidth768 : Bool
  prefersReducedMotion : Bool

/-- The `transform` that the component's style rules give `.stat-card:hover`
(src lines 324-343): the `(hover: hover) and (pointer: fine)` block sets
`translateY(-6px) scale(1.01)` and the later `(max-width: 768px)` block
overrides it with `none` (equal specificity, so the later rule wins when
both media queries match). -/
def statCardHoverTransform (env : MediaEnv) (cssHover : Bool) : Option String :=
  if cssHover then
    if env.maxWidth768 then none
    else if env.hoverHover && env.pointerFine then
      some "translateY(-6px) scale(1.01)"
    else none
  else none

/-- The scale class on the icon span (src lines 222-228): a ternary on
`isHovered = hoveredCard === index`, with no media gating. -/
def iconScaleClass (hoveredCard : Option Nat) (i : Nat) : String :=
  if hoveredCard = some i then "scale-105" else "scale-100"

/-- The scale class on the counter number span (src lines 239-249):
the same ternary, again with no media gating. -/
def counterScaleClass (hoveredCard : Option Nat) (i : Nat) : String :=
  if hoveredCard = some i then "scale-105" else "scale-100"

/-- Whether card `i` shows any hover-triggered transform/scale/elevation
styling: the card transform, the icon scale, or the number scale. -/
def hoverScaleStylingPresent (env : MediaEnv) (hoveredCard : Option Nat)
    (i : Nat) (cssHover : Bool) : Bool :=
  (statCardHoverTransform env cssHover).isSome ||
  (iconScaleClass hoveredCard i == "scale-105") ||
  (counterScaleClass hoveredCard i == "scale-105")

/-- C5 counterexample: in a touch-primary, no-fine-pointer environment
(`hover: none`, `pointer: coarse`), a card with `hoveredIndex` set still
shows hover scale styling — the icon and number `scale-105` classes are
driven purely by the React hover state. -/
theorem touch_env_still_scales :
    hoverScaleStylingPresent ⟨false, false, false, false⟩ (some 0) 0 true = true ∧
    iconScaleClass (some 0) 0 = "scale-105" ∧
    statCardHoverTransform ⟨false, false, false, false⟩ true = none :=
  ⟨rfl, rfl, rfl⟩

/-- C5 amended: on a touch-primary, no-fine-pointer environment the card
elevation transform is suppressed, and by the capability media predicate
`(hover: hover) and (pointer: fine)` rather than by suppressing pointer
handlers — but only that effect: the icon and number `scale-105` hover
styling is decided solely by `hoveredIndex` and still appears while it is
set. -/
theorem touch_env_suppresses_only_card_transform (mw rm cssHover : Bool)
    (i : Nat) :
    statCardHoverTransform ⟨false, false, mw, rm⟩ cssHover = none ∧
    iconScaleClass (some i) i = "scale-105" ∧
    counterScaleClass (some i) i = "scale-105" := by
  refine ⟨?_, by simp [iconScaleClass], by simp [counterScaleClass]⟩
  unfold statCardHoverTransform
  cases cssHover <;> cases mw <;> simp

/-! ## C4: reduced-motion preference (src lines 50-70, 313-322) -/

/-- The reduced-motion media rule (src lines 314-322): with
`prefers-reduced-motion: reduce` the CSS `animation`/`transition` of
`.stat-card`, `.stat-icon`, `.counter-number` and `.accent-line` are forced
to `none`.  It is the only reduced-motion handling in the file. -/
def cssMotionDisabled (env : MediaEnv) : Bool := env.prefersReducedMotion

/-- The counter emissions as a function of the environment's reduced-motion
preference: `animateCounter` (src lines 50-70) queries no media predicate,
so the emitted sequence is the plain `runCounter` run whatever the
preference says. -/
def runCounterWithMotionPref (_prefersReducedMotion : Bool) (f : ℤ)
    (t0 D : ℚ) (ts : List ℚ) : List ℤ :=
  runCounter f t0 D ts

/-- C4 counterexample: with reduced motion signalled, the counter for
finalValue 500 stepped at times 600 and 1200 (t0 = 0, D = 1200) still
emits the intermediate value 375 before resolving to 500 — an intermediate
animated frame other than the immediate resolution. -/
theorem reduced_motion_still_emits_intermediate :
    runCounterWithMotionPref true 500 0 1200 [600, 1200] = [375, 500] ∧
    (375 : ℤ) ≠ 0 ∧ (375 : ℤ) ≠ 500 := by
  refine ⟨?_, by decide, by decide⟩
  show runCounter 500 0 1200 [600, 1200] = [375, 500]
  norm_num [runCounter, currentValueAt, progressAt, easedAt, startValue, min_def]

/-- C4 amended: the reduced-motion preference disables the CSS
transitions/animations but leaves the counter interpolator untouched: the
emitted sequence under reduced motion is identical to the sequence without
it, and the counter still reaches finalValue once a step at or past
t0 + D fires — but intermediate animated values are still emitted. -/
theorem reduced_motion_emissions_unchanged (f : ℤ) (t0 D : ℚ)
    (ts : List ℚ) (hD : 0 < D) (hreach : ∃ t ∈ ts, t0 + D ≤ t) :
    runCounterWithMotionPref true f t0 D ts =
      runCounterWithMotionPref false f t0 D ts ∧
    (runCounterWithMotionPref true f t0 D ts).getLast? = some f ∧
    cssMotionDisabled ⟨true, true, false, true⟩ = true :=
  ⟨rfl, runCounter_getLast? hD ts hreach, rfl⟩

/-- Witness for the amended C4 at finalValue = 500, t0 = 0, D = 1200,
frame times [600, 1200]. -/
theorem reduced_motion_emissions_unchanged_witness :
    runCounterWithMotionPref true 500 0 1200 [600, 1200] =
      runCounterWithMotionPref false 500 0 1200 [600, 1200] ∧
    (runCounterWithMotionPref true 500 0 1200 [600, 1200]).getLast? = some 500 ∧
    cssMotionDisabled ⟨true, true, false, true⟩ = true :=
  reduced_motion_emissions_unchanged 500 0 1200 [600, 1200] (by decide)
    (by simp +decide)
